import Mathlib

/-!
Verification development for the PV-yield preprocessing transformers
(`src/features/transformers.py`): the `ClearskyScalar` irradiance
normaliser and the `RobustMinMaxScaler`.

Modelling conventions:
* Floating-point cell values are modelled as `Val := Option ℚ`, with
  `none` playing the role of the NaN sentinel; elementwise arithmetic
  propagates `none` exactly as IEEE arithmetic propagates NaN.
* A pandas `DataFrame` becomes `DF`: a time index, a column count and a
  row-major list of rows.  Timestamps are modelled as rationals.
* The external solar model (`spa_python` composed with `haurwitz`, from
  the out-of-scope `clearsky` module) is a pure, deterministic,
  NaN-free function of timestamp and location index; it is carried as a
  field `rawGHI` of the `ClearskyScalar` record, exactly as the spec
  treats it (an external pure collaborator).
* Methods that can raise (`assert`, `check_is_fitted`, sklearn
  validation) return `Except Err _`.
* `pandas.DataFrame.where(cond, inplace=...)` is the single mutating
  primitive the code uses, so the `ClearskyScalar` methods are
  translated in effect form: they return the scaler, the state of the
  argument frame after the call, and the value the method returns
  (`none` when Python returns `None`, as `where(..., inplace=True)`
  does).
-/

/-- Timestamps of the `pandas.DatetimeIndex` are modelled as rationals. -/
abbrev Time := ℚ

/-- A float cell: `none` is the NaN sentinel. -/
abbrev Val := Option ℚ

/-- Elementwise addition, NaN-propagating. -/
def vadd (a b : Val) : Val :=
  match a, b with
  | some x, some y => some (x + y)
  | _, _ => none

/-- Elementwise subtraction, NaN-propagating. -/
def vsub (a b : Val) : Val :=
  match a, b with
  | some x, some y => some (x - y)
  | _, _ => none

/-- Elementwise multiplication, NaN-propagating. -/
def vmul (a b : Val) : Val :=
  match a, b with
  | some x, some y => some (x * y)
  | _, _ => none

/-- Elementwise division, NaN-propagating.  A zero divisor is mapped to
NaN; every division the translated code performs has a divisor that is
either NaN or a nonzero rational (the zero-GHI substitution in
`ClearskyScalar.transform` and sklearn's `_handle_zeros_in_scale` guard
the zero cases), so this branch is never exercised by the methods. -/
def vdiv (a b : Val) : Val :=
  match a, b with
  | some x, some y => if y = 0 then none else some (x / y)
  | _, _ => none

/-- `np.minimum`: propagates NaN (unlike `nanmin`). -/
def vmin2 (a b : Val) : Val :=
  match a, b with
  | some x, some y => some (min x y)
  | _, _ => none

/-- `np.maximum`: propagates NaN. -/
def vmax2 (a b : Val) : Val :=
  match a, b with
  | some x, some y => some (max x y)
  | _, _ => none

/-- One cell of `DataFrame.clip(lower, upper, axis=1)`: a NaN value
stays NaN; a NaN bound imposes no constraint on that side. -/
def vclip (v lo hi : Val) : Val :=
  match v with
  | none => none
  | some x =>
      let y := match lo with
        | some a => max x a
        | none => x
      let z := match hi with
        | some b => min y b
        | none => y
      some z

/-- Errors the translated methods can raise: the `assert` on the column
count (spec: ShapeMismatch), sklearn's `check_is_fitted`
(spec: NotFitted), and the `feature_range` sanity check sklearn's
`MinMaxScaler.partial_fit` performs. -/
inductive Err where
  | ShapeMismatch : Err
  | NotFitted : Err
  | BadFeatureRange : Err
deriving DecidableEq, Repr

/-- A pandas DataFrame: a time index, a column count and row-major
data. -/
structure DF where
  index : List Time
  cols : ℕ
  rows : List (List Val)
deriving DecidableEq, Repr

/-- Well-formedness: one data row per index entry, each of width
`cols`. -/
def DF.WF (X : DF) : Prop :=
  X.rows.length = X.index.length ∧ ∀ r ∈ X.rows, r.length = X.cols

/-- Cell access (out of range reads as NaN; theorems only use it in
range). -/
def DF.cell (X : DF) (i j : ℕ) : Val :=
  (X.rows.getD i []).getD j none

/-- Column `j` as a list (one entry per row). -/
def DF.col (X : DF) (j : ℕ) : List Val :=
  X.rows.map (fun r => r.getD j none)

/-- Timestamp of row `i`. -/
def DF.time (X : DF) (i : ℕ) : Time :=
  X.index.getD i 0

/-- Apply `f j v` to every position `j` of a row. -/
def rowMapIdx (f : ℕ → Val → Val) (row : List Val) : List Val :=
  (List.range row.length).map (fun j => f j (row.getD j none))

theorem rowMapIdx_length (f : ℕ → Val → Val) (row : List Val) :
    (rowMapIdx f row).length = row.length := by
  simp [rowMapIdx]

theorem rowMapIdx_getD (f : ℕ → Val → Val) (row : List Val) (j : ℕ)
    (hj : j < row.length) :
    (rowMapIdx f row).getD j none = f j (row.getD j none) := by
  have hj' : j < (rowMapIdx f row).length := by
    simpa [rowMapIdx_length] using hj
  rw [List.getD_eq_getElem _ _ hj']
  simp [rowMapIdx, List.getD_eq_getElem _ _ hj]

/-- The `ClearskyScalar` of `transformers.py`: latitudes, longitudes,
the fudge factor `g0`, and the external clear-sky model.  `rawGHI t j`
is `haurwitz(spa_python(t, lats, lons))` at location index `j`: a pure,
deterministic, NaN-free function supplied by the out-of-scope
`clearsky` module. -/
structure ClearskyScalar where
  lats : List ℚ
  lons : List ℚ
  g0 : ℚ
  rawGHI : Time → ℕ → ℚ

namespace ClearskyScalar

/-- One entry of `haurwitz_ghi(times)`: the raw GHI plus the fudge
factor `g0`. -/
def haurwitz_ghi (s : ClearskyScalar) (t : Time) (j : ℕ) : ℚ :=
  s.rawGHI t j + s.g0

/-- One entry of the divisor matrix of `transform`: the fudged GHI
after the substitution `GHI[GHI==0] = np.nan`. -/
def ghiDivisor (s : ClearskyScalar) (t : Time) (j : ℕ) : Val :=
  if s.haurwitz_ghi t j = 0 then none else some (s.haurwitz_ghi t j)

/-- `ClearskyScalar.transform`: asserts the column count matches the
location count, computes the fudged GHI on `X`'s index, replaces exact
zeros by NaN, and divides elementwise.  Effect form: returns the scaler
(unchanged: the body assigns no attribute), the state of `X` after the
call (unchanged: `/` allocates a new frame), and the returned frame. -/
def transform (s : ClearskyScalar) (X : DF) :
    Except Err (ClearskyScalar × DF × Option DF) :=
  if s.lats.length = X.cols then
    .ok (s, X, some
      { index := X.index
        cols := X.cols
        rows := List.zipWith
          (fun t row => rowMapIdx (fun j v => vdiv v (s.ghiDivisor t j)) row)
          X.index X.rows })
  else .error .ShapeMismatch

/-- `ClearskyScalar.inverse_transform`: same assert, recomputes the
same fudged GHI from the index and multiplies elementwise (no zero
substitution). -/
def inverse_transform (s : ClearskyScalar) (X : DF) :
    Except Err (ClearskyScalar × DF × Option DF) :=
  if s.lats.length = X.cols then
    .ok (s, X, some
      { index := X.index
        cols := X.cols
        rows := List.zipWith
          (fun t row =>
            rowMapIdx (fun j v => vmul v (some (s.haurwitz_ghi t j))) row)
          X.index X.rows })
  else .error .ShapeMismatch

/-- The frame produced by `X.where(GHI > min_ghi + g0)`: a cell is kept
where the fudged GHI exceeds `min_ghi + g0`, and is NaN otherwise. -/
def maskedFrame (s : ClearskyScalar) (X : DF) (min_ghi : ℚ) : DF :=
  { index := X.index
    cols := X.cols
    rows := List.zipWith
      (fun t row =>
        rowMapIdx
          (fun j v => if min_ghi + s.g0 < s.haurwitz_ghi t j then v else none)
          row)
      X.index X.rows }

/-- `ClearskyScalar.filter_to_daylight`: asserts the column count, then
`return X.where(GHI > min_ghi + self.g0, inplace=inplace)`.  With
`inplace=True` pandas mutates `X` and the method returns Python's
`None`; otherwise `X` is untouched and the masked copy is returned. -/
def filter_to_daylight (s : ClearskyScalar) (X : DF) (min_ghi : ℚ)
    (inplace : Bool) : Except Err (ClearskyScalar × DF × Option DF) :=
  if s.lats.length = X.cols then
    if inplace then .ok (s, s.maskedFrame X min_ghi, none)
    else .ok (s, X, some (s.maskedFrame X min_ghi))
  else .error .ShapeMismatch

end ClearskyScalar

/-- `np.nanmin` over a column: the minimum of the non-NaN entries, NaN
when there are none. -/
def nanmin (col : List Val) : Val :=
  (col.filterMap id).min?

/-- `np.nanmax` over a column. -/
def nanmax (col : List Val) : Val :=
  (col.filterMap id).max?

/-- Linear interpolation into a (sorted) list at fractional position
`h`, as `np.percentile` does: the value at `a[⌊h⌋]` plus the fractional
part times the gap to the next element. -/
def interpSorted (a : List ℚ) (h : ℚ) : ℚ :=
  let i : ℕ := (⌊h⌋).toNat
  let x0 := a.getD i 0
  let x1 := a.getD (i + 1) x0
  x0 + (h - (i : ℚ)) * (x1 - x0)

/-- `np.nanpercentile(col, q)` (default linear interpolation): drop the
NaNs, sort, and interpolate at position `q/100 * (n-1)`; NaN when every
entry is NaN. -/
def nanpercentile (col : List Val) (q : ℚ) : Val :=
  let vals := List.insertionSort (fun a b => a ≤ b) (col.filterMap id)
  match vals with
  | [] => none
  | _ :: _ => some (interpSorted vals (q / 100 * ((vals.length : ℚ) - 1)))

/-- sklearn's `_handle_zeros_in_scale`: a zero range scales by 1. -/
def handleZero (r : ℚ) : ℚ :=
  if r = 0 then 1 else r

/-- `MinMaxScaler.scale_` for one feature, from the fitted data
bounds (NaN if either bound is NaN): `(hi - lo) / handle_zeros(data_max
- data_min)`. -/
def mmScale (fr : ℚ × ℚ) (dmin dmax : Val) : Val :=
  match dmin, dmax with
  | some a, some b => some ((fr.2 - fr.1) / handleZero (b - a))
  | _, _ => none

/-- `MinMaxScaler.min_` for one feature: `lo - data_min * scale_`. -/
def mmMin (fr : ℚ × ℚ) (dmin dmax : Val) : Val :=
  match dmin, dmax with
  | some a, some b => some (fr.1 - a * ((fr.2 - fr.1) / handleZero (b - a)))
  | _, _ => none

/-- The fitted attributes a `RobustMinMaxScaler` carries after
`partial_fit`: the percentile bounds it stores itself, and the
`data_min_`/`data_max_` of the underlying `MinMaxScaler` (computed from
the clipped data). -/
structure RFitted where
  robust_data_min : List Val
  robust_data_max : List Val
  data_min : List Val
  data_max : List Val
deriving DecidableEq, Repr

/-- `RobustMinMaxScaler`: constructor parameters plus the optional
fitted state (`none` before any fit, so `check_is_fitted` fails). -/
structure RobustMinMaxScaler where
  feature_range : ℚ × ℚ
  saturation_fraction : ℚ
  fitted : Option RFitted
deriving Repr

namespace RobustMinMaxScaler

/-- `X.clip(rmin, rmax, axis=1)`: clip column `j` of `X` to
`[rmin[j], rmax[j]]` cellwise, preserving labels. -/
def clipDF (X : DF) (rmin rmax : List Val) : DF :=
  { index := X.index
    cols := X.cols
    rows := X.rows.map
      (fun row =>
        rowMapIdx (fun j v => vclip v (rmin.getD j none) (rmax.getD j none))
          row) }

/-- `RobustMinMaxScaler.partial_fit`: computes the saturation
percentiles of each column of this batch ignoring NaNs, overwrites
`robust_data_min`/`robust_data_max` with them, clips the batch to those
bounds, and delegates to `MinMaxScaler.partial_fit` on the clipped
data, which validates `feature_range`, takes NaN-ignoring column
minima/maxima and accumulates them (`np.minimum`/`np.maximum`) into the
running data bounds. -/
def partialFit (s : RobustMinMaxScaler) (X : DF) :
    Except Err RobustMinMaxScaler :=
  let pmin := s.saturation_fraction * 100
  let pmax := (1 - s.saturation_fraction) * 100
  let rmin := (List.range X.cols).map (fun j => nanpercentile (X.col j) pmin)
  let rmax := (List.range X.cols).map (fun j => nanpercentile (X.col j) pmax)
  let Xr := clipDF X rmin rmax
  if s.feature_range.1 < s.feature_range.2 then
    let bmin := (List.range Xr.cols).map (fun j => nanmin (Xr.col j))
    let bmax := (List.range Xr.cols).map (fun j => nanmax (Xr.col j))
    match s.fitted with
    | none =>
        .ok { s with fitted := some ⟨rmin, rmax, bmin, bmax⟩ }
    | some f =>
        if f.data_min.length = X.cols then
          .ok { s with fitted := some (RFitted.mk rmin rmax
            (List.zipWith vmin2 f.data_min bmin)
            (List.zipWith vmax2 f.data_max bmax)) }
        else .error .ShapeMismatch
  else .error .BadFeatureRange

/-- `fit`: sklearn's `fit` resets the fitted state and performs a
single `partial_fit`. -/
def fit (s : RobustMinMaxScaler) (X : DF) : Except Err RobustMinMaxScaler :=
  partialFit { s with fitted := none } X

/-- A sequence of `partial_fit` calls on successive batches. -/
def partialFitAll (s : RobustMinMaxScaler) (batches : List DF) :
    Except Err RobustMinMaxScaler :=
  batches.foldlM partialFit s

/-- `RobustMinMaxScaler.transform`: `check_is_fitted`, clip to the
stored robust bounds per column, then the affine `MinMaxScaler`
map `x * scale_ + min_`; the output keeps `X`'s labels. -/
def transform (s : RobustMinMaxScaler) (X : DF) : Except Err DF :=
  match s.fitted with
  | none => .error .NotFitted
  | some f =>
      if f.data_min.length = X.cols then
        .ok
          { index := X.index
            cols := X.cols
            rows := X.rows.map
              (fun row =>
                rowMapIdx
                  (fun j v =>
                    vadd
                      (vmul
                        (vclip v (f.robust_data_min.getD j none)
                          (f.robust_data_max.getD j none))
                        (mmScale s.feature_range (f.data_min.getD j none)
                          (f.data_max.getD j none)))
                      (mmMin s.feature_range (f.data_min.getD j none)
                        (f.data_max.getD j none)))
                  row) }
      else .error .ShapeMismatch

/-- `RobustMinMaxScaler.inverse_transform`: delegates to
`MinMaxScaler.inverse_transform` (`check_is_fitted`, then
`(x - min_) / scale_`; no unclipping), and keeps `X`'s labels. -/
def inverse_transform (s : RobustMinMaxScaler) (X : DF) : Except Err DF :=
  match s.fitted with
  | none => .error .NotFitted
  | some f =>
      if f.data_min.length = X.cols then
        .ok
          { index := X.index
            cols := X.cols
            rows := X.rows.map
              (fun row =>
                rowMapIdx
                  (fun j v =>
                    vdiv
                      (vsub v
                        (mmMin s.feature_range (f.data_min.getD j none)
                          (f.data_max.getD j none)))
                      (mmScale s.feature_range (f.data_min.getD j none)
                        (f.data_max.getD j none)))
                  row) }
      else .error .ShapeMismatch

end RobustMinMaxScaler

section CellLemmas

/-- Cell formula for frames built row-by-row against the time index
(the `ClearskyScalar` operations). -/
theorem cell_zipWith_build (f : Time → ℕ → Val → Val) (X : DF)
    (hWF : X.WF) (i j : ℕ) (hi : i < X.rows.length) (hj : j < X.cols) :
    (DF.mk X.index X.cols
        (List.zipWith (fun t row => rowMapIdx (f t) row) X.index X.rows)).cell
        i j
      = f (X.time i) j (X.cell i j) := by
  obtain ⟨hlen, hrow⟩ := hWF
  have hi' : i < X.index.length := hlen ▸ hi
  have hz : i < (List.zipWith (fun t row => rowMapIdx (f t) row)
      X.index X.rows).length := by
    simpa [List.length_zipWith, hlen] using hi
  have hrl : (X.rows.getD i []).length = X.cols := by
    have : X.rows.getD i [] ∈ X.rows := by
      rw [List.getD_eq_getElem _ _ hi]
      exact List.getElem_mem hi
    exact hrow _ this
  have hj' : j < (X.rows.getD i []).length := by rw [hrl]; exact hj
  unfold DF.cell DF.time
  rw [List.getD_eq_getElem _ _ hz, List.getElem_zipWith,
    List.getD_eq_getElem _ _ hi']
  rw [List.getD_eq_getElem _ _ hi] at hj' ⊢
  exact rowMapIdx_getD _ _ _ hj'

/-- Cell formula for frames built row-by-row without the index (the
`RobustMinMaxScaler` operations and `clipDF`). -/
theorem cell_map_build (g : ℕ → Val → Val) (X : DF)
    (hWF : X.WF) (i j : ℕ) (hi : i < X.rows.length) (hj : j < X.cols) :
    (DF.mk X.index X.cols
        (X.rows.map (fun row => rowMapIdx g row))).cell i j
      = g j (X.cell i j) := by
  obtain ⟨hlen, hrow⟩ := hWF
  have hm : i < (X.rows.map (fun row => rowMapIdx g row)).length := by
    simpa using hi
  have hrl : (X.rows.getD i []).length = X.cols := by
    have : X.rows.getD i [] ∈ X.rows := by
      rw [List.getD_eq_getElem _ _ hi]
      exact List.getElem_mem hi
    exact hrow _ this
  have hj' : j < (X.rows.getD i []).length := by rw [hrl]; exact hj
  unfold DF.cell
  rw [List.getD_eq_getElem _ _ hm, List.getElem_map,
    List.getD_eq_getElem _ _ hi]
  rw [List.getD_eq_getElem _ _ hi] at hj'
  exact rowMapIdx_getD _ _ _ hj'

/-- The frames the operations build are again well-formed. -/
theorem WF_zipWith_build (f : Time → ℕ → Val → Val) (X : DF) (hWF : X.WF) :
    (DF.mk X.index X.cols
      (List.zipWith (fun t row => rowMapIdx (f t) row) X.index X.rows)).WF := by
  obtain ⟨hlen, hrow⟩ := hWF
  constructor
  · simp [List.length_zipWith, hlen]
  · intro r hr
    rw [List.mem_iff_getElem] at hr
    obtain ⟨k, hk, hkr⟩ := hr
    have hk2 : k < X.rows.length := by
      simpa [List.length_zipWith, hlen] using hk
    rw [List.getElem_zipWith] at hkr
    have : (X.rows[k]).length = X.cols :=
      hrow _ (List.getElem_mem hk2)
    simpa [← hkr, rowMapIdx_length] using this

/-- Map-built frames are well-formed. -/
theorem WF_map_build (g : ℕ → Val → Val) (X : DF) (hWF : X.WF) :
    (DF.mk X.index X.cols (X.rows.map (fun row => rowMapIdx g row))).WF := by
  obtain ⟨hlen, hrow⟩ := hWF
  constructor
  · simpa using hlen
  · intro r hr
    rw [List.mem_map] at hr
    obtain ⟨r0, hr0, hr0r⟩ := hr
    simpa [← hr0r, rowMapIdx_length] using hrow _ hr0

end CellLemmas

/-- Claim C7: whenever the column count of the input differs from the
size of the fixed location set, `transform`, `inverse_transform` and
`filter_to_daylight` all fail immediately with the shape-mismatch
error, producing no output. -/
theorem spec2proof_C7 (s : ClearskyScalar) (X : DF) (m : ℚ) (b : Bool)
    (h : s.lats.length ≠ X.cols) :
    s.transform X = .error .ShapeMismatch ∧
    s.inverse_transform X = .error .ShapeMismatch ∧
    s.filter_to_daylight X m b = .error .ShapeMismatch := by
  unfold ClearskyScalar.transform ClearskyScalar.inverse_transform
    ClearskyScalar.filter_to_daylight
  simp [h]

def w7S : ClearskyScalar :=
  ⟨[55, 51], [-2, 0], 10, fun _ _ => 0⟩

def w7X : DF :=
  ⟨[0], 1, [[some 1]]⟩

/-- Witness for C7 at a concrete scaler with two locations and a
one-column frame. -/
theorem spec2proof_C7_witness :
    w7S.lats.length ≠ w7X.cols ∧
    (w7S.transform w7X = .error .ShapeMismatch ∧
      w7S.inverse_transform w7X = .error .ShapeMismatch ∧
      w7S.filter_to_daylight w7X 0 false = .error .ShapeMismatch) :=
  ⟨by decide, spec2proof_C7 w7S w7X 0 false (by decide)⟩

/-- Claim C8: a `RobustMinMaxScaler` on which neither `fit` nor
`partial_fit` has been called fails with the not-fitted error in both
`transform` and `inverse_transform`. -/
theorem spec2proof_C8 (s : RobustMinMaxScaler) (X1 X2 : DF)
    (h : s.fitted = none) :
    s.transform X1 = .error .NotFitted ∧
    s.inverse_transform X2 = .error .NotFitted := by
  unfold RobustMinMaxScaler.transform RobustMinMaxScaler.inverse_transform
  rw [h]
  exact ⟨rfl, rfl⟩

def w8S : RobustMinMaxScaler :=
  ⟨(0, 1), 1 / 100, none⟩

/-- Witness for C8 at a freshly constructed scaler. -/
theorem spec2proof_C8_witness :
    w8S.fitted = none ∧
    (w8S.transform w7X = .error .NotFitted ∧
      w8S.inverse_transform w7X = .error .NotFitted) :=
  ⟨rfl, spec2proof_C8 w8S w7X w7X rfl⟩

/-- Claim C9: with matching column counts, the in-place variant of
`filter_to_daylight` leaves `X` holding exactly the frame the copying
variant returns (so all unmasked cells agree), and both leave the index
and the column labels unchanged; the in-place call returns Python's
`None`. -/
theorem spec2proof_C9 (s : ClearskyScalar) (X : DF) (m : ℚ)
    (h : s.lats.length = X.cols) :
    ∃ Y, s.filter_to_daylight X m true = .ok (s, Y, none) ∧
      s.filter_to_daylight X m false = .ok (s, X, some Y) ∧
      Y.index = X.index ∧ Y.cols = X.cols := by
  refine ⟨s.maskedFrame X m, ?_, ?_, rfl, rfl⟩ <;>
    simp [ClearskyScalar.filter_to_daylight, h]

def w9X : DF :=
  ⟨[0, 1], 2, [[some 1, none], [some 2, some 3]]⟩

/-- Witness for C9 at a concrete scaler and frame. -/
theorem spec2proof_C9_witness :
    w7S.lats.length = w9X.cols ∧
    (∃ Y, w7S.filter_to_daylight w9X 0 true = .ok (w7S, Y, none) ∧
      w7S.filter_to_daylight w9X 0 false = .ok (w7S, w9X, some Y) ∧
      Y.index = w9X.index ∧ Y.cols = w9X.cols) :=
  ⟨by decide, spec2proof_C9 w7S w9X 0 (by decide)⟩

/-- Claim C10: with `inplace=False`, `transform`, `inverse_transform`
and `filter_to_daylight` leave the input frame untouched (its cells,
index and column labels are what they were) and leave the scaler's own
state (latitudes, longitudes, `g0`) unchanged, returning a newly built
frame. -/
theorem spec2proof_C10 (s : ClearskyScalar) (X : DF) (m : ℚ)
    (h : s.lats.length = X.cols) :
    (∃ Y, s.transform X = .ok (s, X, some Y)) ∧
    (∃ Y, s.inverse_transform X = .ok (s, X, some Y)) ∧
    (∃ Y, s.filter_to_daylight X m false = .ok (s, X, some Y)) := by
  unfold ClearskyScalar.transform ClearskyScalar.inverse_transform
    ClearskyScalar.filter_to_daylight
  simp [h]

/-- Witness for C10 at a concrete scaler and frame. -/
theorem spec2proof_C10_witness :
    w7S.lats.length = w9X.cols ∧
    ((∃ Y, w7S.transform w9X = .ok (w7S, w9X, some Y)) ∧
      (∃ Y, w7S.inverse_transform w9X = .ok (w7S, w9X, some Y)) ∧
      (∃ Y, w7S.filter_to_daylight w9X 0 false = .ok (w7S, w9X, some Y))) :=
  ⟨by decide, spec2proof_C10 w7S w9X 0 (by decide)⟩

def c1S : ClearskyScalar :=
  ⟨[55], [-2], 10, fun _ _ => 0⟩

def c1X : DF :=
  ⟨[0], 1, [[some 5]]⟩

def c1Y : DF :=
  ⟨[0], 1, [[some (1 / 2 : ℚ)]]⟩

/-- Counterexample to claim C1 as stated: with fudge factor `g0 = 10`
and raw (unfudged) GHI exactly `0` at the single cell, `transform`
divides through by the fudged GHI `10` and returns `5 / 10 = 1/2`, not
NaN — the zero substitution `GHI[GHI==0] = np.nan` tests the fudged
GHI, not the raw one. -/
theorem spec2proof_C1_counterexample :
    c1S.rawGHI (c1X.time 0) 0 = 0 ∧
    c1S.g0 = 10 ∧
    c1X.cell 0 0 = some 5 ∧
    c1S.transform c1X = .ok (c1S, c1X, some c1Y) ∧
    c1Y.cell 0 0 = some (1 / 2) ∧
    c1Y.cell 0 0 ≠ none := by
  refine ⟨by norm_num [c1S, c1X, DF.time], rfl, by decide, ?_,
    by simp [c1Y, DF.cell], by decide⟩
  unfold ClearskyScalar.transform
  rw [if_pos (by decide)]
  unfold c1S c1X c1Y
  simp [rowMapIdx, List.range_succ, vdiv, ClearskyScalar.ghiDivisor,
    ClearskyScalar.haurwitz_ghi]
  norm_num

/-- Claim C1 amended: at every cell whose *fudged* GHI (raw GHI plus
`g0`) is exactly zero — which coincides with the raw-GHI-zero cells
exactly when `g0 = 0` — `transform` returns NaN regardless of the value
of `X` at that cell. -/
theorem spec2proof_C1 (s : ClearskyScalar) (X : DF) (i j : ℕ)
    (hWF : X.WF) (hc : s.lats.length = X.cols)
    (hi : i < X.rows.length) (hj : j < X.cols)
    (hg : s.haurwitz_ghi (X.time i) j = 0) :
    ∃ Y, s.transform X = .ok (s, X, some Y) ∧ Y.cell i j = none := by
  refine ⟨DF.mk X.index X.cols
    (List.zipWith
      (fun t row => rowMapIdx (fun j v => vdiv v (s.ghiDivisor t j)) row)
      X.index X.rows), ?_, ?_⟩
  · simp [ClearskyScalar.transform, hc]
  · rw [cell_zipWith_build (fun t j v => vdiv v (s.ghiDivisor t j))
      X hWF i j hi hj]
    simp only [ClearskyScalar.ghiDivisor, hg, if_pos]
    cases X.cell i j <;> rfl

def w1S : ClearskyScalar :=
  ⟨[7], [8], 0, fun _ _ => 0⟩

/-- Witness for the amended C1: with `g0 = 0` and raw GHI `0`, the cell
holding `5` comes back NaN. -/
theorem spec2proof_C1_witness :
    c1X.WF ∧ w1S.lats.length = c1X.cols ∧ 0 < c1X.rows.length ∧
    0 < c1X.cols ∧ w1S.haurwitz_ghi (c1X.time 0) 0 = 0 ∧
    (∃ Y, w1S.transform c1X = .ok (w1S, c1X, some Y) ∧ Y.cell 0 0 = none) :=
  ⟨⟨rfl, by decide⟩, rfl, by decide, by decide,
    by norm_num [w1S, c1X, DF.time, ClearskyScalar.haurwitz_ghi],
    spec2proof_C1 w1S c1X 0 0 ⟨rfl, by decide⟩ rfl (by decide) (by decide)
      (by norm_num [w1S, c1X, DF.time, ClearskyScalar.haurwitz_ghi])⟩

/-- Claim C3: `filter_to_daylight(X, min_ghi=m)` returns, with the row
index and column labels unchanged, a frame that is NaN at every cell
whose unfudged GHI is at most `m` and is exactly the input elsewhere
(the mask `GHI > m + g0` on the fudged GHI is the same condition as
`raw GHI > m`). -/
theorem spec2proof_C3 (s : ClearskyScalar) (X : DF) (m : ℚ)
    (hWF : X.WF) (hc : s.lats.length = X.cols) :
    ∃ Y, s.filter_to_daylight X m false = .ok (s, X, some Y) ∧
      Y.index = X.index ∧ Y.cols = X.cols ∧
      ∀ i j, i < X.rows.length → j < X.cols →
        (s.rawGHI (X.time i) j ≤ m → Y.cell i j = none) ∧
        (m < s.rawGHI (X.time i) j → Y.cell i j = X.cell i j) := by
  refine ⟨s.maskedFrame X m,
    by simp [ClearskyScalar.filter_to_daylight, hc], rfl, rfl, ?_⟩
  intro i j hi hj
  have hcell := cell_zipWith_build
    (fun t j v => if m + s.g0 < s.haurwitz_ghi t j then v else none)
    X hWF i j hi hj
  have hmask : (s.maskedFrame X m).cell i j =
      if m + s.g0 < s.haurwitz_ghi (X.time i) j then X.cell i j else none := by
    exact hcell
  constructor
  · intro hle
    have : ¬ (m + s.g0 < s.haurwitz_ghi (X.time i) j) := by
      unfold ClearskyScalar.haurwitz_ghi
      rw [not_lt, add_comm m s.g0, add_comm (s.rawGHI (X.time i) j) s.g0]
      exact add_le_add_left hle s.g0
    rw [hmask, if_neg this]
  · intro hlt
    have : m + s.g0 < s.haurwitz_ghi (X.time i) j := by
      unfold ClearskyScalar.haurwitz_ghi
      rw [add_comm m s.g0, add_comm (s.rawGHI (X.time i) j) s.g0]
      exact add_lt_add_left hlt s.g0
    rw [hmask, if_pos this]

def w3S : ClearskyScalar :=
  ⟨[1], [2], 5, fun t _ => t⟩

def w3X : DF :=
  ⟨[0, 10], 1, [[some 3], [some 4]]⟩

/-- Witness for C3: with raw GHI equal to the timestamp, threshold 2
masks the first row and keeps the second. -/
theorem spec2proof_C3_witness :
    w3X.WF ∧ w3S.lats.length = w3X.cols ∧
    (∃ Y, w3S.filter_to_daylight w3X 2 false = .ok (w3S, w3X, some Y) ∧
      Y.index = w3X.index ∧ Y.cols = w3X.cols ∧
      ∀ i j, i < w3X.rows.length → j < w3X.cols →
        (w3S.rawGHI (w3X.time i) j ≤ 2 → Y.cell i j = none) ∧
        (2 < w3S.rawGHI (w3X.time i) j → Y.cell i j = w3X.cell i j)) :=
  ⟨⟨rfl, by decide⟩, rfl, spec2proof_C3 w3S w3X 2 ⟨rfl, by decide⟩ rfl⟩

/-- Claim C2: on a well-formed frame with the matching column count,
`inverse_transform(transform(X))` recomputes the same GHI matrix from
the same (preserved) time index and returns `X` exactly, at every cell
where the computed (fudged) GHI is nonzero and `X` is not NaN; in this
exact-arithmetic model the floating-point tolerance sharpens to
equality. -/
theorem spec2proof_C2 (s : ClearskyScalar) (X : DF)
    (hWF : X.WF) (hc : s.lats.length = X.cols) :
    ∃ Y Z, s.transform X = .ok (s, X, some Y) ∧
      s.inverse_transform Y = .ok (s, Y, some Z) ∧
      Y.index = X.index ∧ Z.index = X.index ∧ Z.cols = X.cols ∧
      ∀ i j, i < X.rows.length → j < X.cols →
        s.haurwitz_ghi (X.time i) j ≠ 0 → X.cell i j ≠ none →
        Z.cell i j = X.cell i j := by
  obtain ⟨Y, hYeq⟩ : ∃ Y, s.transform X = .ok (s, X, some Y) :=
    ⟨DF.mk X.index X.cols
      (List.zipWith
        (fun t row => rowMapIdx (fun j v => vdiv v (s.ghiDivisor t j)) row)
        X.index X.rows),
      by simp [ClearskyScalar.transform, hc]⟩
  have hYval : Y = DF.mk X.index X.cols
      (List.zipWith
        (fun t row => rowMapIdx (fun j v => vdiv v (s.ghiDivisor t j)) row)
        X.index X.rows) := by
    have := hYeq
    unfold ClearskyScalar.transform at this
    rw [if_pos hc] at this
    simpa using this.symm
  have hWFY : Y.WF := by
    rw [hYval]
    exact WF_zipWith_build _ X hWF
  have hYcols : Y.cols = X.cols := by rw [hYval]
  have hYindex : Y.index = X.index := by rw [hYval]
  have hYrowslen : Y.rows.length = X.rows.length := by
    rw [hYval]
    simp [List.length_zipWith, hWF.1]
  obtain ⟨Z, hZeq⟩ : ∃ Z, s.inverse_transform Y = .ok (s, Y, some Z) :=
    ⟨DF.mk Y.index Y.cols
      (List.zipWith
        (fun t row =>
          rowMapIdx (fun j v => vmul v (some (s.haurwitz_ghi t j))) row)
        Y.index Y.rows),
      by simp [ClearskyScalar.inverse_transform, hYcols ▸ hc]⟩
  have hZval : Z = DF.mk Y.index Y.cols
      (List.zipWith
        (fun t row =>
          rowMapIdx (fun j v => vmul v (some (s.haurwitz_ghi t j))) row)
        Y.index Y.rows) := by
    have := hZeq
    unfold ClearskyScalar.inverse_transform at this
    rw [if_pos (hYcols ▸ hc)] at this
    simpa using this.symm
  refine ⟨Y, Z, hYeq, hZeq, hYindex, by rw [hZval, hYindex],
    by rw [hZval, hYcols], ?_⟩
  intro i j hi hj hg hx
  have hiY : i < Y.rows.length := by rw [hYrowslen]; exact hi
  have hjY : j < Y.cols := by rw [hYcols]; exact hj
  have hcellY :
      Y.cell i j = vdiv (X.cell i j) (s.ghiDivisor (X.time i) j) := by
    rw [hYval]
    exact cell_zipWith_build (fun t j v => vdiv v (s.ghiDivisor t j))
      X hWF i j hi hj
  have hcellZ :
      Z.cell i j = vmul (Y.cell i j) (some (s.haurwitz_ghi (Y.time i) j)) := by
    rw [hZval]
    exact cell_zipWith_build
      (fun t j v => vmul v (some (s.haurwitz_ghi t j))) Y hWFY i j hiY hjY
  have htime : Y.time i = X.time i := by
    unfold DF.time
    rw [hYindex]
  rw [hcellZ, htime, hcellY]
  obtain ⟨x, hxv⟩ := Option.ne_none_iff_exists'.mp hx
  rw [hxv]
  unfold ClearskyScalar.ghiDivisor
  rw [if_neg hg]
  unfold vdiv vmul
  simp only [if_neg hg, Option.some.injEq]
  exact div_mul_cancel₀ x hg

def w2S : ClearskyScalar :=
  ⟨[50], [0], 1, fun t _ => t⟩

def w2X : DF :=
  ⟨[3], 1, [[some 7]]⟩

/-- Witness for C2 at a one-cell frame with fudged GHI `4`. -/
theorem spec2proof_C2_witness :
    w2X.WF ∧ w2S.lats.length = w2X.cols ∧
    (∃ Y Z, w2S.transform w2X = .ok (w2S, w2X, some Y) ∧
      w2S.inverse_transform Y = .ok (w2S, Y, some Z) ∧
      Y.index = w2X.index ∧ Z.index = w2X.index ∧ Z.cols = w2X.cols ∧
      ∀ i j, i < w2X.rows.length → j < w2X.cols →
        w2S.haurwitz_ghi (w2X.time i) j ≠ 0 → w2X.cell i j ≠ none →
        Z.cell i j = w2X.cell i j) :=
  ⟨⟨rfl, by decide⟩, rfl, spec2proof_C2 w2S w2X ⟨rfl, by decide⟩ rfl⟩

theorem handleZero_ne_zero (r : ℚ) : handleZero r ≠ 0 := by
  unfold handleZero
  split
  · exact one_ne_zero
  · assumption

/-- Claim C6: each of the four transforms maps NaN cells to NaN cells
and never turns a NaN into a number; conversely no numeric cell becomes
NaN, except that `ClearskyScalar.transform` additionally yields NaN at
the cells whose (fudged) GHI is zero.  The robust scaler is assumed
well fitted: numeric data bounds (each training column had a non-NaN
entry) and a proper `feature_range`. -/
theorem spec2proof_C6
    (s : ClearskyScalar) (r : RobustMinMaxScaler) (X : DF) (f : RFitted)
    (hWF : X.WF) (hc : s.lats.length = X.cols)
    (hf : r.fitted = some f) (hw : f.data_min.length = X.cols)
    (hlo : r.feature_range.1 < r.feature_range.2)
    (hbounds : ∀ j, j < X.cols →
      f.data_min.getD j none ≠ none ∧ f.data_max.getD j none ≠ none) :
    ∃ Y1 Y2 Y3 Y4,
      s.transform X = .ok (s, X, some Y1) ∧
      s.inverse_transform X = .ok (s, X, some Y2) ∧
      r.transform X = .ok Y3 ∧
      r.inverse_transform X = .ok Y4 ∧
      ∀ i j, i < X.rows.length → j < X.cols →
        (Y1.cell i j = none ↔
          (X.cell i j = none ∨ s.haurwitz_ghi (X.time i) j = 0)) ∧
        (Y2.cell i j = none ↔ X.cell i j = none) ∧
        (Y3.cell i j = none ↔ X.cell i j = none) ∧
        (Y4.cell i j = none ↔ X.cell i j = none) := by
  refine ⟨DF.mk X.index X.cols
      (List.zipWith
        (fun t row => rowMapIdx (fun j v => vdiv v (s.ghiDivisor t j)) row)
        X.index X.rows),
    DF.mk X.index X.cols
      (List.zipWith
        (fun t row =>
          rowMapIdx (fun j v => vmul v (some (s.haurwitz_ghi t j))) row)
        X.index X.rows),
    DF.mk X.index X.cols
      (X.rows.map
        (fun row =>
          rowMapIdx
            (fun j v =>
              vadd
                (vmul
                  (vclip v (f.robust_data_min.getD j none)
                    (f.robust_data_max.getD j none))
                  (mmScale r.feature_range (f.data_min.getD j none)
                    (f.data_max.getD j none)))
                (mmMin r.feature_range (f.data_min.getD j none)
                  (f.data_max.getD j none)))
            row)),
    DF.mk X.index X.cols
      (X.rows.map
        (fun row =>
          rowMapIdx
            (fun j v =>
              vdiv
                (vsub v
                  (mmMin r.feature_range (f.data_min.getD j none)
                    (f.data_max.getD j none)))
                (mmScale r.feature_range (f.data_min.getD j none)
                  (f.data_max.getD j none)))
            row)),
    by simp [ClearskyScalar.transform, hc],
    by simp [ClearskyScalar.inverse_transform, hc],
    ?_, ?_, ?_⟩
  · simp [RobustMinMaxScaler.transform, hf, hw]
  · simp [RobustMinMaxScaler.inverse_transform, hf, hw]
  · intro i j hi hj
    obtain ⟨ha, hb⟩ := hbounds j hj
    obtain ⟨a, ha⟩ := Option.ne_none_iff_exists'.mp ha
    obtain ⟨b, hb⟩ := Option.ne_none_iff_exists'.mp hb
    have h1 := cell_zipWith_build
      (fun t j v => vdiv v (s.ghiDivisor t j)) X hWF i j hi hj
    have h2 := cell_zipWith_build
      (fun t j v => vmul v (some (s.haurwitz_ghi t j))) X hWF i j hi hj
    have h3 := cell_map_build
      (fun j v =>
        vadd
          (vmul
            (vclip v (f.robust_data_min.getD j none)
              (f.robust_data_max.getD j none))
            (mmScale r.feature_range (f.data_min.getD j none)
              (f.data_max.getD j none)))
          (mmMin r.feature_range (f.data_min.getD j none)
            (f.data_max.getD j none))) X hWF i j hi hj
    have h4 := cell_map_build
      (fun j v =>
        vdiv
          (vsub v
            (mmMin r.feature_range (f.data_min.getD j none)
              (f.data_max.getD j none)))
          (mmScale r.feature_range (f.data_min.getD j none)
            (f.data_max.getD j none))) X hWF i j hi hj
    rw [h1, h2, h3, h4]
    dsimp only
    rw [ha, hb]
    have hscale : mmScale r.feature_range (some a) (some b) =
        some ((r.feature_range.2 - r.feature_range.1) /
          handleZero (b - a)) := rfl
    have hsne : (r.feature_range.2 - r.feature_range.1) /
        handleZero (b - a) ≠ 0 :=
      div_ne_zero (sub_ne_zero.mpr (ne_of_gt hlo)) (handleZero_ne_zero _)
    refine ⟨?_, ?_, ?_, ?_⟩
    · by_cases hg : s.haurwitz_ghi (X.time i) j = 0
      · simp only [ClearskyScalar.ghiDivisor, if_pos hg]
        cases X.cell i j <;> simp [vdiv, hg]
      · simp only [ClearskyScalar.ghiDivisor, if_neg hg]
        cases X.cell i j with
        | none => simp [vdiv, hg]
        | some x => simp [vdiv, hg]
    · cases X.cell i j <;> simp [vmul]
    · cases X.cell i j with
      | none => simp [vclip, vmul, vadd]
      | some x =>
          rw [hscale]
          cases hrlo : f.robust_data_min.getD j none <;>
            cases hrhi : f.robust_data_max.getD j none <;>
              simp [vclip, vmul, vadd, mmMin]
    · cases X.cell i j with
      | none => simp [vsub, vdiv]
      | some x =>
          rw [hscale]
          simp [vsub, vdiv, mmMin, hsne]

def w6S : ClearskyScalar :=
  ⟨[1], [2], 1, fun t _ => t⟩

def w6X : DF :=
  ⟨[0, 1], 1, [[some 5], [none]]⟩

def w6R : RobustMinMaxScaler :=
  ⟨(0, 1), 1 / 100, some ⟨[some 0], [some 1], [some 0], [some 1]⟩⟩

/-- Witness for C6: a frame with one NaN and one numeric cell, a
well-fitted robust scaler, and nonzero GHI. -/
theorem spec2proof_C6_witness :
    w6X.WF ∧ w6S.lats.length = w6X.cols ∧
    w6R.fitted = some ⟨[some 0], [some 1], [some 0], [some 1]⟩ ∧
    (0 : ℚ) < 1 ∧
    (∃ Y1 Y2 Y3 Y4,
      w6S.transform w6X = .ok (w6S, w6X, some Y1) ∧
      w6S.inverse_transform w6X = .ok (w6S, w6X, some Y2) ∧
      w6R.transform w6X = .ok Y3 ∧
      w6R.inverse_transform w6X = .ok Y4 ∧
      ∀ i j, i < w6X.rows.length → j < w6X.cols →
        (Y1.cell i j = none ↔
          (w6X.cell i j = none ∨ w6S.haurwitz_ghi (w6X.time i) j = 0)) ∧
        (Y2.cell i j = none ↔ w6X.cell i j = none) ∧
        (Y3.cell i j = none ↔ w6X.cell i j = none) ∧
        (Y4.cell i j = none ↔ w6X.cell i j = none)) :=
  ⟨⟨rfl, by decide⟩, rfl, rfl, by norm_num,
    spec2proof_C6 w6S w6R w6X ⟨[some 0], [some 1], [some 0], [some 1]⟩
      ⟨rfl, by decide⟩ rfl rfl (by decide) (by norm_num [w6R]) (by decide)⟩

/-- Anatomy of one successful `partial_fit` call: the constructor
parameters survive, and the stored robust bounds are overwritten with
the percentiles of exactly this batch. -/
theorem partialFit_ok (m : RobustMinMaxScaler) (X : DF)
    (s' : RobustMinMaxScaler)
    (h : m.partialFit X = .ok s') :
    s'.feature_range = m.feature_range ∧
    s'.saturation_fraction = m.saturation_fraction ∧
    ∃ f, s'.fitted = some f ∧
      f.robust_data_min = (List.range X.cols).map
        (fun j => nanpercentile (X.col j) (m.saturation_fraction * 100)) ∧
      f.robust_data_max = (List.range X.cols).map
        (fun j =>
          nanpercentile (X.col j) ((1 - m.saturation_fraction) * 100)) ∧
      f.data_min.length = X.cols := by
  unfold RobustMinMaxScaler.partialFit at h
  simp only [] at h
  by_cases hfr : m.feature_range.1 < m.feature_range.2
  · rw [if_pos hfr] at h
    cases hm : m.fitted with
    | none =>
        rw [hm] at h
        simp only [] at h
        injection h with h
        subst h
        exact ⟨rfl, rfl, _, rfl, rfl, rfl, by simp [RobustMinMaxScaler.clipDF]⟩
    | some f0 =>
        rw [hm] at h
        simp only [] at h
        by_cases hlen : f0.data_min.length = X.cols
        · rw [if_pos hlen] at h
          injection h with h
          subst h
          refine ⟨rfl, rfl, _, rfl, rfl, rfl, ?_⟩
          simp [List.length_zipWith, hlen, RobustMinMaxScaler.clipDF]
        · rw [if_neg hlen] at h
          exact absurd h (by simp)
  · rw [if_neg hfr] at h
    exact absurd h (by simp)

/-- A chain of `partial_fit` calls never changes the constructor
parameters. -/
theorem partialFitAll_params (s : RobustMinMaxScaler) (bs : List DF)
    (s' : RobustMinMaxScaler)
    (h : s.partialFitAll bs = .ok s') :
    s'.saturation_fraction = s.saturation_fraction := by
  induction bs generalizing s with
  | nil =>
      unfold RobustMinMaxScaler.partialFitAll at h
      simp only [List.foldlM_nil] at h
      injection h with h
      rw [h]
  | cons b bs ih =>
      unfold RobustMinMaxScaler.partialFitAll at h
      simp only [List.foldlM_cons] at h
      cases hb : s.partialFit b with
      | error e =>
          rw [hb] at h
          exact absurd
            (show (Except.error e : Except Err RobustMinMaxScaler) =
              .ok s' from h) (by simp)
      | ok mid =>
          rw [hb] at h
          have h2 : mid.partialFitAll bs = .ok s' := h
          have h3 := ih mid h2
          have h4 := (partialFit_ok s b mid hb).2.1
          rw [h3, h4]

/-- Claim C5: after any successful sequence of `partial_fit` calls, the
stored `robust_data_min`/`robust_data_max` are exactly the
`saturation_fraction*100` and `(1-saturation_fraction)*100` NaN-ignoring
percentiles of the columns of the last batch alone — each call
overwrites them, so earlier batches leave no trace in these bounds. -/
theorem spec2proof_C5 (s : RobustMinMaxScaler) (batches : List DF) (Xn : DF)
    (s' : RobustMinMaxScaler)
    (h : s.partialFitAll (batches ++ [Xn]) = .ok s') :
    s'.saturation_fraction = s.saturation_fraction ∧
    ∃ f, s'.fitted = some f ∧
      f.robust_data_min = (List.range Xn.cols).map
        (fun j => nanpercentile (Xn.col j) (s.saturation_fraction * 100)) ∧
      f.robust_data_max = (List.range Xn.cols).map
        (fun j =>
          nanpercentile (Xn.col j) ((1 - s.saturation_fraction) * 100)) := by
  unfold RobustMinMaxScaler.partialFitAll at h
  rw [List.foldlM_append] at h
  cases hmid : List.foldlM RobustMinMaxScaler.partialFit s batches with
  | error e =>
      rw [hmid] at h
      exact absurd
        (show (Except.error e : Except Err RobustMinMaxScaler) =
          .ok s' from h) (by simp)
  | ok mid =>
      rw [hmid] at h
      have hlast : mid.partialFit Xn = .ok s' := by
        have h2 : (mid.partialFit Xn >>= fun b =>
            (pure b : Except Err RobustMinMaxScaler)) = .ok s' := h
        rw [bind_pure] at h2
        exact h2
      have hsf : mid.saturation_fraction = s.saturation_fraction :=
        partialFitAll_params s batches mid hmid
      obtain ⟨-, hsf2, f, hf, hmin, hmax, -⟩ := partialFit_ok mid Xn s' hlast
      refine ⟨by rw [hsf2, hsf], f, hf, ?_, ?_⟩
      · rw [hmin, hsf]
      · rw [hmax, hsf]

theorem exceptBind_ok {α β ε : Type} (a : α) (k : α → Except ε β) :
    (Except.ok a >>= k) = k a := rfl

/-- `partial_fit` succeeds whenever the feature range is proper and the
batch width matches any previously fitted width. -/
theorem partialFit_succeeds (s : RobustMinMaxScaler) (X : DF)
    (hfr : s.feature_range.1 < s.feature_range.2)
    (hfit : s.fitted = none ∨
      ∃ f, s.fitted = some f ∧ f.data_min.length = X.cols) :
    ∃ s', s.partialFit X = .ok s' := by
  unfold RobustMinMaxScaler.partialFit
  simp only []
  rw [if_pos hfr]
  rcases hfit with hnone | ⟨f, hsome, hlen⟩
  · rw [hnone]
    exact ⟨_, rfl⟩
  · rw [hsome]
    simp only []
    rw [if_pos hlen]
    exact ⟨_, rfl⟩

def w5S : RobustMinMaxScaler :=
  ⟨(0, 1), 1 / 4, none⟩

def w5X1 : DF :=
  ⟨[0], 1, [[some 9]]⟩

def w5X2 : DF :=
  ⟨[0], 1, [[some 2]]⟩

/-- Witness for C5: two successive one-column batches; after the second
`partial_fit` the robust bounds are the percentiles of the second batch
alone. -/
theorem spec2proof_C5_witness :
    ∃ s', w5S.partialFitAll ([w5X1] ++ [w5X2]) = .ok s' ∧
      (s'.saturation_fraction = w5S.saturation_fraction ∧
        ∃ f, s'.fitted = some f ∧
          f.robust_data_min = (List.range w5X2.cols).map
            (fun j =>
              nanpercentile (w5X2.col j) (w5S.saturation_fraction * 100)) ∧
          f.robust_data_max = (List.range w5X2.cols).map
            (fun j =>
              nanpercentile (w5X2.col j)
                ((1 - w5S.saturation_fraction) * 100))) := by
  obtain ⟨m1, hm1⟩ := partialFit_succeeds w5S w5X1 (by norm_num [w5S])
    (Or.inl rfl)
  obtain ⟨hfr1, hsf1, f1, hf1, hrmin1, hrmax1, hlen1⟩ :=
    partialFit_ok w5S w5X1 m1 hm1
  obtain ⟨s2, hs2⟩ := partialFit_succeeds m1 w5X2
    (by rw [hfr1]; norm_num [w5S])
    (Or.inr ⟨f1, hf1, by rw [hlen1]; decide⟩)
  have hAll : w5S.partialFitAll ([w5X1] ++ [w5X2]) = .ok s2 := by
    unfold RobustMinMaxScaler.partialFitAll
    simp only [List.cons_append, List.nil_append, List.foldlM_cons,
      List.foldlM_nil, hm1, exceptBind_ok, hs2]
    rfl
  exact ⟨s2, hAll, spec2proof_C5 w5S [w5X1] w5X2 s2 hAll⟩

section PercentileLemmas

/-- Linear interpolation into a sorted nonempty list at a position
inside `[0, n-1]` stays between the first and the last element. -/
theorem interpSorted_bounds (a : List ℚ) (hs : List.Sorted (· ≤ ·) a)
    (hne : a ≠ []) (h : ℚ) (h0 : 0 ≤ h) (h1 : h ≤ (a.length : ℚ) - 1) :
    a.getD 0 0 ≤ interpSorted a h ∧ interpSorted a h ≤
      a.getD (a.length - 1) 0 := by
  have hn : 0 < a.length := List.length_pos.mpr hne
  have hfl0 : 0 ≤ ⌊h⌋ := Int.floor_nonneg.mpr h0
  set i : ℕ := (⌊h⌋).toNat with hidef
  have hiq : ((i : ℤ) : ℚ) = ((⌊h⌋ : ℤ) : ℚ) := by
    rw [hidef, Int.toNat_of_nonneg hfl0]
  have hiq' : (i : ℚ) = ((⌊h⌋ : ℤ) : ℚ) := by
    rw [← hiq]
    push_cast
    rfl
  have hilh : (i : ℚ) ≤ h := by
    rw [hiq']
    exact Int.floor_le h
  have hhi1 : h < (i : ℚ) + 1 := by
    rw [hiq']
    exact_mod_cast Int.lt_floor_add_one h
  have hfln : ⌊h⌋ ≤ (a.length : ℤ) - 1 := by
    have : ((a.length : ℤ) - 1 : ℤ) = ⌊(((a.length : ℤ) - 1 : ℤ) : ℚ)⌋ := by
      rw [Int.floor_intCast]
    rw [this]
    apply Int.floor_le_floor
    push_cast
    exact h1
  have hin : i ≤ a.length - 1 := by
    omega
  have hi_lt : i < a.length := by omega
  have hfrac0 : 0 ≤ h - (i : ℚ) := by linarith
  have hfrac1 : h - (i : ℚ) < 1 := by linarith
  have hx0 : a.getD i 0 = a.get ⟨i, hi_lt⟩ := by
    rw [List.getD_eq_getElem _ _ hi_lt]
    rfl
  have hlow : a.getD 0 0 ≤ a.getD i 0 := by
    rw [hx0, List.getD_eq_getElem _ _ hn]
    exact hs.rel_get_of_le (by exact_mod_cast Nat.zero_le i)
  have hhigh : a.getD i 0 ≤ a.getD (a.length - 1) 0 := by
    have hl : a.length - 1 < a.length := by omega
    rw [hx0, List.getD_eq_getElem _ _ hl]
    exact hs.rel_get_of_le (by exact_mod_cast hin)
  unfold interpSorted
  simp only []
  rw [← hidef]
  by_cases hcase : i + 1 < a.length
  · have hx1 : a.getD (i + 1) (a.getD i 0) = a.get ⟨i + 1, hcase⟩ := by
      rw [List.getD_eq_getElem _ _ hcase]
      rfl
    have hadj : a.getD i 0 ≤ a.getD (i + 1) (a.getD i 0) := by
      rw [hx1, hx0]
      exact hs.rel_get_of_le (by exact_mod_cast Nat.le_succ i)
    have hhigh1 : a.getD (i + 1) (a.getD i 0) ≤ a.getD (a.length - 1) 0 := by
      have hl : a.length - 1 < a.length := by omega
      have hle : i + 1 ≤ a.length - 1 := by omega
      rw [hx1, List.getD_eq_getElem _ _ hl]
      exact hs.rel_get_of_le (by exact_mod_cast hle)
    constructor
    · have : 0 ≤ (h - (i : ℚ)) *
          (a.getD (i + 1) (a.getD i 0) - a.getD i 0) :=
        mul_nonneg hfrac0 (by linarith)
      linarith
    · have : (h - (i : ℚ)) * (a.getD (i + 1) (a.getD i 0) - a.getD i 0) ≤
          1 * (a.getD (i + 1) (a.getD i 0) - a.getD i 0) :=
        mul_le_mul_of_nonneg_right (le_of_lt hfrac1) (by linarith)
      linarith
  · have hi_eq : i = a.length - 1 := by omega
    have hgetD : a.getD (i + 1) (a.getD i 0) = a.getD i 0 := by
      apply List.getD_eq_default
      omega
    have hheq : h = (i : ℚ) := by
      have : ((a.length : ℚ) - 1) = (i : ℚ) := by
        rw [hi_eq]
        have : ((a.length - 1 : ℕ) : ℚ) = (a.length : ℚ) - 1 := by
          have := hn
          push_cast [Nat.cast_sub (by omega : 1 ≤ a.length)]
          ring
        rw [← this]
      linarith
    rw [hgetD, hheq]
    constructor
    · simp only [sub_self, mul_zero, add_zero]
      rw [hi_eq] at hlow ⊢
      exact hlow
    · simp only [sub_self, mul_zero, zero_mul, add_zero]
      rw [hi_eq]

end PercentileLemmas

/-- A NaN-ignoring percentile with `0 ≤ q ≤ 100` lies between some two
non-NaN entries of the column (in particular the minimum and the
maximum). -/
theorem nanpercentile_bounds (col : List Val) (q a : ℚ) (hq0 : 0 ≤ q)
    (hq1 : q ≤ 100) (h : nanpercentile col q = some a) :
    (∃ x ∈ col.filterMap id, x ≤ a) ∧ (∃ x ∈ col.filterMap id, a ≤ x) := by
  unfold nanpercentile at h
  simp only [] at h
  cases hv : List.insertionSort (fun a b => a ≤ b) (col.filterMap id) with
  | nil =>
      rw [hv] at h
      exact absurd h (by simp)
  | cons v vs =>
      rw [hv] at h
      simp only [Option.some.injEq] at h
      have hsorted : List.Sorted (fun a b => a ≤ b) (v :: vs) := by
        rw [← hv]
        exact List.sorted_insertionSort _ _
      have hperm : (v :: vs).Perm (col.filterMap id) := by
        rw [← hv]
        exact List.perm_insertionSort _ _
      have hne : (v :: vs) ≠ [] := List.cons_ne_nil _ _
      have hn : 0 < (v :: vs).length := List.length_pos.mpr hne
      have hpos : (0 : ℚ) ≤ q / 100 * (((v :: vs).length : ℚ) - 1) := by
        apply mul_nonneg (by positivity)
        have : (1 : ℚ) ≤ ((v :: vs).length : ℚ) := by exact_mod_cast hn
        linarith
      have hup : q / 100 * (((v :: vs).length : ℚ) - 1) ≤
          ((v :: vs).length : ℚ) - 1 := by
        have h100 : q / 100 ≤ 1 := by
          rw [div_le_one (by norm_num : (0:ℚ) < 100)]
          exact hq1
        have hnn : (0 : ℚ) ≤ ((v :: vs).length : ℚ) - 1 := by
          have : (1 : ℚ) ≤ ((v :: vs).length : ℚ) := by exact_mod_cast hn
          linarith
        calc q / 100 * (((v :: vs).length : ℚ) - 1)
            ≤ 1 * (((v :: vs).length : ℚ) - 1) :=
              mul_le_mul_of_nonneg_right h100 hnn
          _ = ((v :: vs).length : ℚ) - 1 := one_mul _
      have hbounds := interpSorted_bounds (v :: vs) hsorted hne
        (q / 100 * (((v :: vs).length : ℚ) - 1)) hpos hup
      rw [h] at hbounds
      have hmem0 : (v :: vs).getD 0 0 ∈ (v :: vs) := by simp
      have hmeml : (v :: vs).getD ((v :: vs).length - 1) 0 ∈ (v :: vs) := by
        have hl : (v :: vs).length - 1 < (v :: vs).length := by simp
        rw [List.getD_eq_getElem _ _ hl]
        exact List.getElem_mem hl
      exact ⟨⟨_, hperm.mem_iff.mp hmem0, hbounds.1⟩,
        ⟨_, hperm.mem_iff.mp hmeml, hbounds.2⟩⟩

/-- `nanmin` characterisation: a value that is in the column (NaNs
dropped) and below every entry is the nanmin. -/
theorem nanmin_eq_some (col : List Val) (m : ℚ)
    (hmem : m ∈ col.filterMap id) (hle : ∀ x ∈ col.filterMap id, m ≤ x) :
    nanmin col = some m := by
  unfold nanmin
  haveI : Std.Antisymm ((· : ℚ) ≤ ·) := ⟨fun h1 h2 => le_antisymm h1 h2⟩
  have : (col.filterMap id).min? = some m ↔
      m ∈ col.filterMap id ∧ ∀ b ∈ col.filterMap id, m ≤ b :=
    List.min?_eq_some_iff le_refl (fun a b => min_choice a b)
      (fun a b c => le_min_iff)
  exact this.mpr ⟨hmem, fun b hb => hle b hb⟩

/-- `nanmax` characterisation. -/
theorem nanmax_eq_some (col : List Val) (m : ℚ)
    (hmem : m ∈ col.filterMap id) (hge : ∀ x ∈ col.filterMap id, x ≤ m) :
    nanmax col = some m := by
  unfold nanmax
  haveI : Std.Antisymm ((· : ℚ) ≤ ·) := ⟨fun h1 h2 => le_antisymm h1 h2⟩
  have : (col.filterMap id).max? = some m ↔
      m ∈ col.filterMap id ∧ ∀ b ∈ col.filterMap id, b ≤ m :=
    List.max?_eq_some_iff le_refl (fun a b => max_choice a b)
      (fun a b c => max_le_iff)
  exact this.mpr ⟨hmem, fun b hb => hge b hb⟩

/-- `rowMapIdx` cellwise, valid at any position once `f` sends NaN to
NaN. -/
theorem rowMapIdx_getD_all (f : ℕ → Val → Val) (row : List Val) (j : ℕ)
    (hf : f j none = none) :
    (rowMapIdx f row).getD j none = f j (row.getD j none) := by
  by_cases hj : j < row.length
  · exact rowMapIdx_getD f row j hj
  · rw [List.getD_eq_default, List.getD_eq_default, hf]
    · omega
    · rw [rowMapIdx_length]
      omega

/-- Column `j` of the clipped frame is the clipped column `j`. -/
theorem clipDF_col (X : DF) (rmin rmax : List Val) (j : ℕ) :
    (RobustMinMaxScaler.clipDF X rmin rmax).col j =
      (X.col j).map
        (fun v => vclip v (rmin.getD j none) (rmax.getD j none)) := by
  unfold RobustMinMaxScaler.clipDF DF.col
  simp only [List.map_map]
  apply List.map_congr_left
  intro row hrow
  exact rowMapIdx_getD_all _ row j rfl

/-- Dropping NaNs of a clipped column (with numeric bounds) is clipping
the dropped-NaN column. -/
theorem filterMap_map_vclip (l : List Val) (a b : ℚ) :
    (l.map (fun v => vclip v (some a) (some b))).filterMap id =
      (l.filterMap id).map (fun x => min (max x a) b) := by
  induction l with
  | nil => rfl
  | cons v l ih =>
      cases v with
      | none => simpa [vclip] using ih
      | some x => simpa [vclip] using ih

theorem getD_map_range (g : ℕ → Val) (n j : ℕ) (hj : j < n) :
    ((List.range n).map g).getD j none = g j := by
  have hj' : j < ((List.range n).map g).length := by simpa using hj
  rw [List.getD_eq_getElem _ _ hj']
  simp

/-- Anatomy of a successful `fit` (reset + single `partial_fit`), at
one column index: the robust bounds are this batch's percentiles, and
the underlying min-max bounds are the NaN-ignoring min/max of the
clipped column. -/
theorem fit_ok (s : RobustMinMaxScaler) (X : DF) (s1 : RobustMinMaxScaler)
    (h : s.fit X = .ok s1) (j : ℕ) (hj : j < X.cols) :
    s.feature_range.1 < s.feature_range.2 ∧
    s1.feature_range = s.feature_range ∧
    s1.saturation_fraction = s.saturation_fraction ∧
    ∃ f, s1.fitted = some f ∧
      f.robust_data_min.getD j none =
        nanpercentile (X.col j) (s.saturation_fraction * 100) ∧
      f.robust_data_max.getD j none =
        nanpercentile (X.col j) ((1 - s.saturation_fraction) * 100) ∧
      f.data_min.getD j none =
        nanmin ((X.col j).map
          (fun v => vclip v (f.robust_data_min.getD j none)
            (f.robust_data_max.getD j none))) ∧
      f.data_max.getD j none =
        nanmax ((X.col j).map
          (fun v => vclip v (f.robust_data_min.getD j none)
            (f.robust_data_max.getD j none))) ∧
      f.data_min.length = X.cols := by
  unfold RobustMinMaxScaler.fit RobustMinMaxScaler.partialFit at h
  simp only [] at h
  by_cases hfr : s.feature_range.1 < s.feature_range.2
  · rw [if_pos hfr] at h
    injection h with h
    subst h
    refine ⟨hfr, rfl, rfl, _, rfl, ?_, ?_, ?_, ?_, ?_⟩
    · exact getD_map_range _ _ _ hj
    · exact getD_map_range _ _ _ hj
    · have hjc : j < (RobustMinMaxScaler.clipDF X
          ((List.range X.cols).map
            (fun j => nanpercentile (X.col j) (s.saturation_fraction * 100)))
          ((List.range X.cols).map
            (fun j =>
              nanpercentile (X.col j)
                ((1 - s.saturation_fraction) * 100)))).cols := hj
      rw [getD_map_range _ _ _ hjc, clipDF_col,
        getD_map_range _ _ _ hj, getD_map_range _ _ _ hj]
    · have hjc : j < (RobustMinMaxScaler.clipDF X
          ((List.range X.cols).map
            (fun j => nanpercentile (X.col j) (s.saturation_fraction * 100)))
          ((List.range X.cols).map
            (fun j =>
              nanpercentile (X.col j)
                ((1 - s.saturation_fraction) * 100)))).cols := hj
      rw [getD_map_range _ _ _ hjc, clipDF_col,
        getD_map_range _ _ _ hj, getD_map_range _ _ _ hj]
    · simp [RobustMinMaxScaler.clipDF]
  · rw [if_neg hfr] at h
    exact absurd h (by simp)

/-- Claim C4: after `fit`, for a feature `j` with numeric, distinct
robust bounds `a < b` (the saturation percentiles of the training
batch), `transform` maps every input value in `[a, b]` into
`feature_range` and clamps every value outside: values at or below `a`
go exactly to the lower end of `feature_range`, values at or above `b`
exactly to the upper end.  This holds because the clipped training
column has minimum `a` and maximum `b`, so the inherited min-max bounds
coincide with the robust bounds. -/
theorem spec2proof_C4 (s : RobustMinMaxScaler) (X0 X : DF)
    (s1 : RobustMinMaxScaler) (f : RFitted) (j : ℕ) (a b : ℚ)
    (hsf0 : 0 ≤ s.saturation_fraction) (hsf1 : s.saturation_fraction ≤ 1)
    (hWF : X.WF)
    (hfit : s.fit X0 = .ok s1) (hf : s1.fitted = some f)
    (hcols : X.cols = X0.cols) (hj : j < X.cols)
    (ha : f.robust_data_min.getD j none = some a)
    (hb : f.robust_data_max.getD j none = some b) (hab : a < b) :
    ∃ Y, s1.transform X = .ok Y ∧
      ∀ i x, i < X.rows.length → X.cell i j = some x →
        (a ≤ x → x ≤ b →
          ∃ y, Y.cell i j = some y ∧
            s.feature_range.1 ≤ y ∧ y ≤ s.feature_range.2) ∧
        (x ≤ a → Y.cell i j = some s.feature_range.1) ∧
        (b ≤ x → Y.cell i j = some s.feature_range.2) := by
  obtain ⟨hfr, hfr1, hsf, f', hf', hrmin, hrmax, hdmin, hdmax, hdlen⟩ :=
    fit_ok s X0 s1 hfit j (hcols ▸ hj)
  rw [hf] at hf'
  injection hf' with hf'
  subst hf'
  have hpa : nanpercentile (X0.col j) (s.saturation_fraction * 100) =
      some a := by rw [← hrmin]; exact ha
  have hpb : nanpercentile (X0.col j) ((1 - s.saturation_fraction) * 100) =
      some b := by rw [← hrmax]; exact hb
  rw [ha, hb] at hdmin hdmax
  have hq0 : (0 : ℚ) ≤ s.saturation_fraction * 100 :=
    mul_nonneg hsf0 (by norm_num)
  have hq1 : s.saturation_fraction * 100 ≤ 100 := by
    have := mul_le_mul_of_nonneg_right hsf1 (by norm_num : (0:ℚ) ≤ 100)
    linarith
  have hq0' : (0 : ℚ) ≤ (1 - s.saturation_fraction) * 100 := by
    have : (0 : ℚ) ≤ 1 - s.saturation_fraction := by linarith
    exact mul_nonneg this (by norm_num)
  have hq1' : (1 - s.saturation_fraction) * 100 ≤ 100 := by
    have h1 : 1 - s.saturation_fraction ≤ 1 := by linarith
    have := mul_le_mul_of_nonneg_right h1 (by norm_num : (0:ℚ) ≤ 100)
    linarith
  obtain ⟨⟨xlo, hxlo_mem, hxlo_le⟩, -⟩ :=
    nanpercentile_bounds (X0.col j) _ a hq0 hq1 hpa
  obtain ⟨-, xhi, hxhi_mem, hxhi_ge⟩ :=
    nanpercentile_bounds (X0.col j) _ b hq0' hq1' hpb
  have hdminv : f.data_min.getD j none = some a := by
    rw [hdmin]
    apply nanmin_eq_some
    · rw [filterMap_map_vclip]
      refine List.mem_map.mpr ⟨xlo, hxlo_mem, ?_⟩
      rw [max_eq_right hxlo_le, min_eq_left hab.le]
    · intro y hy
      rw [filterMap_map_vclip] at hy
      obtain ⟨x, -, hxy⟩ := List.mem_map.mp hy
      rw [← hxy]
      exact le_min (le_max_right x a) hab.le
  have hdmaxv : f.data_max.getD j none = some b := by
    rw [hdmax]
    apply nanmax_eq_some
    · rw [filterMap_map_vclip]
      refine List.mem_map.mpr ⟨xhi, hxhi_mem, ?_⟩
      rw [max_eq_left (le_trans hab.le hxhi_ge), min_eq_right hxhi_ge]
    · intro y hy
      rw [filterMap_map_vclip] at hy
      obtain ⟨x, -, hxy⟩ := List.mem_map.mp hy
      rw [← hxy]
      exact min_le_right _ b
  have hlen : f.data_min.length = X.cols := by rw [hdlen, hcols]
  refine ⟨DF.mk X.index X.cols
    (X.rows.map
      (fun row =>
        rowMapIdx
          (fun j v =>
            vadd
              (vmul
                (vclip v (f.robust_data_min.getD j none)
                  (f.robust_data_max.getD j none))
                (mmScale s1.feature_range (f.data_min.getD j none)
                  (f.data_max.getD j none)))
              (mmMin s1.feature_range (f.data_min.getD j none)
                (f.data_max.getD j none)))
          row)), ?_, ?_⟩
  · unfold RobustMinMaxScaler.transform
    rw [hf]
    simp only []
    rw [if_pos hlen]
  · intro i x hi hx
    have hcell := cell_map_build
      (fun j v =>
        vadd
          (vmul
            (vclip v (f.robust_data_min.getD j none)
              (f.robust_data_max.getD j none))
            (mmScale s1.feature_range (f.data_min.getD j none)
              (f.data_max.getD j none)))
          (mmMin s1.feature_range (f.data_min.getD j none)
            (f.data_max.getD j none))) X hWF i j hi hj
    rw [hcell]
    dsimp only
    rw [hx, ha, hb, hdminv, hdmaxv, hfr1]
    have hba : b - a ≠ 0 := sub_ne_zero.mpr hab.ne'
    have hhz : handleZero (b - a) = b - a := by
      unfold handleZero
      rw [if_neg hba]
    have hcv : ∀ u : ℚ,
        vadd
          (vmul (vclip (some u) (some a) (some b))
            (mmScale s.feature_range (some a) (some b)))
          (mmMin s.feature_range (some a) (some b)) =
        some (min (max u a) b *
            ((s.feature_range.2 - s.feature_range.1) / (b - a)) +
          (s.feature_range.1 -
            a * ((s.feature_range.2 - s.feature_range.1) / (b - a)))) := by
      intro u
      simp [vclip, vmul, vadd, mmScale, mmMin, hhz]
    rw [hcv x]
    set lo := s.feature_range.1 with hlo
    set hi := s.feature_range.2 with hhi
    set sc := (hi - lo) / (b - a) with hsc
    have hscpos : 0 < sc :=
      div_pos (sub_pos.mpr hfr) (sub_pos.mpr hab)
    have hkey : (b - a) * sc = hi - lo := by
      rw [hsc, mul_comm]
      exact div_mul_cancel₀ _ hba
    refine ⟨?_, ?_, ?_⟩
    · intro hax hxb
      rw [max_eq_left hax, min_eq_left hxb]
      refine ⟨_, rfl, ?_, ?_⟩
      · have h1 : 0 ≤ (x - a) * sc :=
          mul_nonneg (by linarith) hscpos.le
        have h2 : (x - a) * sc = x * sc - a * sc := by ring
        linarith
      · have h1 : (x - a) * sc ≤ (b - a) * sc :=
          mul_le_mul_of_nonneg_right (by linarith) hscpos.le
        have h2 : (x - a) * sc = x * sc - a * sc := by ring
        linarith
    · intro hxa
      rw [max_eq_right hxa, min_eq_left hab.le]
      congr 1
      ring
    · intro hbx
      rw [max_eq_left (le_trans hab.le hbx), min_eq_right hbx]
      have h2 : (b - a) * sc = b * sc - a * sc := by ring
      congr 1
      linarith

def w4S : RobustMinMaxScaler :=
  ⟨(0, 1), 1 / 4, none⟩

def w4X0 : DF :=
  ⟨[0, 1], 1, [[some 1], [some 3]]⟩

def w4X : DF :=
  ⟨[0], 1, [[some 2]]⟩

/-- Witness for C4: fitting on the column `[1, 3]` with saturation
fraction `1/4` gives robust bounds `3/2 < 5/2`; transforming the value
`2` (inside the bounds) exercises the theorem at a concrete instance.
-/
theorem spec2proof_C4_witness :
    (0 : ℚ) ≤ w4S.saturation_fraction ∧ w4S.saturation_fraction ≤ 1 ∧
    w4X.WF ∧ w4X.cols = w4X0.cols ∧ 0 < w4X.cols ∧ (3 / 2 : ℚ) < 5 / 2 ∧
    ∃ s1 f, w4S.fit w4X0 = .ok s1 ∧ s1.fitted = some f ∧
      f.robust_data_min.getD 0 none = some (3 / 2) ∧
      f.robust_data_max.getD 0 none = some (5 / 2) ∧
      ∃ Y, s1.transform w4X = .ok Y ∧
        ∀ i x, i < w4X.rows.length → w4X.cell i 0 = some x →
          ((3 / 2 : ℚ) ≤ x → x ≤ 5 / 2 →
            ∃ y, Y.cell i 0 = some y ∧
              w4S.feature_range.1 ≤ y ∧ y ≤ w4S.feature_range.2) ∧
          (x ≤ 3 / 2 → Y.cell i 0 = some w4S.feature_range.1) ∧
          ((5 / 2 : ℚ) ≤ x → Y.cell i 0 = some w4S.feature_range.2) := by
  obtain ⟨s1, hs1⟩ := partialFit_succeeds w4S w4X0 (by norm_num [w4S])
    (Or.inl rfl)
  have hfit : w4S.fit w4X0 = .ok s1 := hs1
  obtain ⟨-, -, -, f, hff, hrmin, hrmax, -, -, -⟩ :=
    fit_ok w4S w4X0 s1 hfit 0 (by decide)
  have hA : f.robust_data_min.getD 0 none = some (3 / 2) := by
    rw [hrmin]
    rw [show w4X0.col 0 = [some 1, some 3] by norm_num [DF.col, w4X0]]
    rw [show w4S.saturation_fraction * 100 = 25 by norm_num [w4S]]
    rw [nanpercentile]
    norm_num [List.insertionSort, List.orderedInsert, interpSorted]
  have hB : f.robust_data_max.getD 0 none = some (5 / 2) := by
    rw [hrmax]
    rw [show w4X0.col 0 = [some 1, some 3] by norm_num [DF.col, w4X0]]
    rw [show (1 - w4S.saturation_fraction) * 100 = 75 by norm_num [w4S]]
    rw [nanpercentile]
    norm_num [List.insertionSort, List.orderedInsert, interpSorted]
  exact ⟨by norm_num [w4S], by norm_num [w4S], ⟨rfl, by decide⟩, by decide,
    by decide, by norm_num, s1, f, hfit, hff, hA, hB,
    spec2proof_C4 w4S w4X0 w4X s1 f 0 (3 / 2) (5 / 2)
      (by norm_num [w4S]) (by norm_num [w4S]) ⟨rfl, by decide⟩ hfit hff
      (by decide) (by decide) hA hB (by norm_num)⟩
